import Mathlib

/-
  Verification development for the vda-ir-remote-card widget.
  The JavaScript source (a Lovelace custom card) is shallowly embedded:
  pure computations become Lean functions, stateful handlers become
  explicit state-passing functions, timers become discrete-time
  schedules, and fallible service calls are parameterised by their
  outcome.  Machine integers in the source are small JS numbers used as
  counters and millisecond times; they are modelled as Nat.
-/

namespace VDA

/-- JS truthiness of an optional string value: undefined and the empty
string are falsy. -/
def jsStrTruthy : Option String → Bool
  | some s => !s.isEmpty
  | none => false

/-- JS truthiness of an optional number: undefined and 0 are falsy. -/
def jsNatTruthy : Option Nat → Bool
  | some n => n != 0
  | none => false

/-- JS (a || b) for an optional string with the empty string falsy. -/
def jsOrStr : Option String → String → String
  | some s, d => if s.isEmpty then d else s
  | none, d => d

/-- JS (a || b) for an optional number with zero falsy. -/
def jsOrNat : Option Nat → Nat → Nat
  | some n, d => if n = 0 then d else n
  | none, d => d

/-- JS String.prototype.toLowerCase, modelled characterwise (the
identifiers compared in this code are ASCII). -/
def strToLower (s : String) : String := String.mk (s.data.map Char.toLower)

/-- True when the second character list occurs at the head of the first. -/
def leadsWith : List Char → List Char → Bool
  | _, [] => true
  | [], _ :: _ => false
  | c :: cs, d :: ds => c = d && leadsWith cs ds

/-- JS String.prototype.includes: the pattern occurs somewhere in the
subject string. -/
def containsSeq : List Char → List Char → Bool
  | [], sub => leadsWith [] sub
  | c :: t, sub => leadsWith (c :: t) sub || containsSeq t sub

/-- The pattern occurs at the very end of the subject string. -/
def endsWithSeq (l sub : List Char) : Bool :=
  leadsWith l.reverse sub.reverse

/-
  Data model of the matrix resolver (method loadMatrixDevice of the
  card class).  A matrix command is one value of the commands map of
  the matrix detail record; the generated flag models the transient
  tag put on synthesised commands.
-/

structure MatrixCommand where
  command_id : Option String
  name : Option String
  is_input_option : Bool
  input_value : Option String
  device_id : Option String
  generated : Bool
  deriving Repr, DecidableEq

structure MatrixInput where
  index : Nat
  name : Option String
  device_id : Option String
  enabled : Option Bool
  deriving Repr, DecidableEq

structure MatrixDevice where
  commands : List MatrixCommand
  matrix_inputs : List MatrixInput
  deriving Repr, DecidableEq

/-- JS test (input.enabled !== false): an absent flag counts as enabled. -/
def inputEnabled (i : MatrixInput) : Bool :=
  i.enabled ≠ some false

/-- The output suffix string built by the source: append of the literal
underscore-out prefix and the decimal output number. -/
def outSuffix (port : Nat) : List Char :=
  ('_' :: 'o' :: 'u' :: 't' :: []) ++ (Nat.repr port).data

/-- One synthesised input command per enabled slot, exactly as built in
the source (identifier route_input_ plus the index, slot name or the
positional fallback, stringified index as input value, generated tag). -/
def synthesizeInputCommands (inputs : List MatrixInput) : List MatrixCommand :=
  (inputs.filter inputEnabled).map (fun i =>
    { command_id := some ("route_input_" ++ Nat.repr i.index)
      name := some (jsOrStr i.name ("Input " ++ Nat.repr i.index))
      is_input_option := false
      input_value := some (Nat.repr i.index)
      device_id := i.device_id
      generated := true })

/-- The filter applied per declared command when an output port is set:
the command identifier is truthy and CONTAINS the output suffix
(JS includes, substring containment). -/
def cmdMatchesOutput (port : Nat) (c : MatrixCommand) : Bool :=
  match c.command_id with
  | some cid => !cid.isEmpty && containsSeq cid.data (outSuffix port)
  | none => false

/-- Output filtering step of loadMatrixDevice: keep the commands whose
identifier contains the output suffix, unless none does, in which case
keep the whole set. -/
def filterForOutput (port : Nat) (declared : List MatrixCommand) :
    List MatrixCommand :=
  let filtered := declared.filter (cmdMatchesOutput port)
  if filtered ≠ [] then filtered else declared

/-- Input-command resolution of loadMatrixDevice, translated from the
source: take declared commands flagged is_input_option; when the device
has a truthy output port and the set is non-empty, apply the output
filter; when the resulting set is empty (that is, no declared flagged
command exists) synthesise one command per enabled input slot. -/
def resolveMatrixInputCommands (matrixPort : Option Nat) (m : MatrixDevice) :
    List MatrixCommand :=
  let declared := m.commands.filter (·.is_input_option)
  let step1 :=
    if jsNatTruthy matrixPort ∧ declared ≠ [] then
      filterForOutput (matrixPort.getD 0) declared
    else declared
  if step1 = [] then synthesizeInputCommands m.matrix_inputs else step1

/-- Variant of the per-command output filter following the words of the
specification claim: the identifier matches the output pattern as a
SUFFIX.  Used only to compare the claim against the source. -/
def specCmdMatchesOutput (port : Nat) (c : MatrixCommand) : Bool :=
  match c.command_id with
  | some cid => !cid.isEmpty && endsWithSeq cid.data (outSuffix port)
  | none => false

/-- Modelled from the claim wording: identical resolution pipeline but
with the suffix form of the output filter. -/
def specResolveMatrixInputCommands (matrixPort : Option Nat) (m : MatrixDevice) :
    List MatrixCommand :=
  let declared := m.commands.filter (·.is_input_option)
  let step1 :=
    if jsNatTruthy matrixPort ∧ declared ≠ [] then
      let p := matrixPort.getD 0
      let filtered := declared.filter (specCmdMatchesOutput p)
      if filtered ≠ [] then filtered else declared
    else declared
  if step1 = [] then synthesizeInputCommands m.matrix_inputs else step1

theorem filterForOutput_ne_nil (p : Nat) (d : List MatrixCommand) (h : d ≠ []) :
    filterForOutput p d ≠ [] := by
  simp only [filterForOutput]
  by_cases hf : d.filter (cmdMatchesOutput p) ≠ []
  · rw [if_pos hf]; exact hf
  · rw [if_neg hf]; exact h

theorem filterForOutput_subset (p : Nat) (d : List MatrixCommand) :
    ∀ c ∈ filterForOutput p d, c ∈ d := by
  intro c hc
  simp only [filterForOutput] at hc
  split at hc
  · exact List.mem_of_mem_filter hc
  · exact hc

theorem resolve_eq_step1 (port : Nat) (m : MatrixDevice)
    (hne : m.commands.filter (·.is_input_option) ≠ []) :
    resolveMatrixInputCommands (some port) m =
      if jsNatTruthy (some port) = true ∧
          m.commands.filter (·.is_input_option) ≠ [] then
        filterForOutput port (m.commands.filter (·.is_input_option))
      else m.commands.filter (·.is_input_option) := by
  unfold resolveMatrixInputCommands
  simp only [Option.getD_some]
  rw [if_neg]
  split
  · exact filterForOutput_ne_nil _ _ hne
  · exact hne

/-- Declared command routing input 1 to output 12. -/
def c1cmdA : MatrixCommand :=
  { command_id := some "route_in1_out12", name := some "HDMI 1"
    is_input_option := true, input_value := some "1"
    device_id := none, generated := false }

/-- Declared command routing input 2 to output 1. -/
def c1cmdB : MatrixCommand :=
  { command_id := some "route_in2_out1", name := some "HDMI 2"
    is_input_option := true, input_value := some "2"
    device_id := none, generated := false }

/-- A matrix declaring the two commands above and no input slots. -/
def c1Matrix : MatrixDevice :=
  { commands := [c1cmdA, c1cmdB], matrix_inputs := [] }

/-- A matrix with no declared input commands, three enabled input slots
(one named, two unnamed) and one disabled slot. -/
def c1SynthMatrix : MatrixDevice :=
  { commands := []
    matrix_inputs :=
      [ { index := 1, name := some "Apple TV", device_id := some "atv"
          enabled := none }
      , { index := 2, name := none, device_id := none, enabled := some true }
      , { index := 3, name := none, device_id := none, enabled := some false }
      , { index := 4, name := none, device_id := none, enabled := none } ] }

/-- C1 counterexample: the source filters declared commands by SUBSTRING
containment of the output pattern, not by suffix matching as the claim
states.  For output port 1, the command identifier route_in1_out12
contains the pattern but does not end with it, so the source keeps both
declared commands while the claimed suffix rule would keep only the
second. -/
theorem c1_counterexample :
    resolveMatrixInputCommands (some 1) c1Matrix ≠
      specResolveMatrixInputCommands (some 1) c1Matrix ∧
    resolveMatrixInputCommands (some 1) c1Matrix = [c1cmdA, c1cmdB] ∧
    specResolveMatrixInputCommands (some 1) c1Matrix = [c1cmdB] := by
  refine ⟨?_, by decide, by decide⟩
  decide

/-- C1 (amended): the resolver takes the matrix-declared commands
flagged input-selectable; with a truthy output port it keeps those whose
identifier CONTAINS the pattern underscore-out-port (substring, not
suffix), falling back to the unfiltered set when that subset is empty,
so the result is never empty when declared commands exist; only when no
declared flagged command exists does it synthesise exactly one command
per enabled input slot, each tagged generated, with a generated
identifier and the slot name or the positional fallback name. -/
theorem c1_matrix_input_resolution (port : Nat) (m : MatrixDevice)
    (declared : List MatrixCommand)
    (hd : declared = m.commands.filter (·.is_input_option)) :
    (declared ≠ [] →
      resolveMatrixInputCommands (some port) m ≠ [] ∧
      ∀ c ∈ resolveMatrixInputCommands (some port) m, c ∈ declared) ∧
    (port ≠ 0 → declared ≠ [] →
      (declared.filter (cmdMatchesOutput port) ≠ [] →
        resolveMatrixInputCommands (some port) m =
          declared.filter (cmdMatchesOutput port)) ∧
      (declared.filter (cmdMatchesOutput port) = [] →
        resolveMatrixInputCommands (some port) m = declared)) ∧
    (declared = [] →
      resolveMatrixInputCommands (some port) m =
        synthesizeInputCommands m.matrix_inputs ∧
      (resolveMatrixInputCommands (some port) m).length =
        (m.matrix_inputs.filter inputEnabled).length ∧
      ∀ c ∈ resolveMatrixInputCommands (some port) m, c.generated = true) := by
  subst hd
  refine ⟨?_, ?_, ?_⟩
  · intro hne
    rw [resolve_eq_step1 port m hne]
    constructor
    · split
      · exact filterForOutput_ne_nil _ _ hne
      · exact hne
    · intro c hc
      split at hc
      · exact filterForOutput_subset _ _ _ hc
      · exact hc
  · intro hp hne
    have hcond : (jsNatTruthy (some port) = true) ∧
        m.commands.filter (·.is_input_option) ≠ [] := by
      refine ⟨?_, hne⟩
      simp [jsNatTruthy, hp]
    constructor
    · intro hfil
      rw [resolve_eq_step1 port m hne, if_pos hcond]
      simp only [filterForOutput, Option.getD_some]
      rw [if_pos hfil]
    · intro hfil
      rw [resolve_eq_step1 port m hne, if_pos hcond]
      simp only [filterForOutput, Option.getD_some]
      rw [if_neg (by simp [hfil])]
  · intro hde
    have hres : resolveMatrixInputCommands (some port) m =
        synthesizeInputCommands m.matrix_inputs := by
      unfold resolveMatrixInputCommands
      simp [hde]
    refine ⟨hres, ?_, ?_⟩
    · rw [hres]
      simp [synthesizeInputCommands]
    · intro c hc
      rw [hres] at hc
      simp only [synthesizeInputCommands, List.mem_map] at hc
      obtain ⟨i, _, rfl⟩ := hc
      rfl

/-- C1 witness: on the matrix with no declared commands, three enabled
slots and one disabled slot, the amended theorem yields exactly three
synthesised options, named by the slot name where present and the
positional fallback otherwise. -/
theorem c1_witness :
    resolveMatrixInputCommands (some 1) c1SynthMatrix =
      synthesizeInputCommands c1SynthMatrix.matrix_inputs ∧
    (resolveMatrixInputCommands (some 1) c1SynthMatrix).length = 3 ∧
    (resolveMatrixInputCommands (some 1) c1SynthMatrix).map (·.name) =
      [some "Apple TV", some "Input 2", some "Input 4"] := by
  have h := (c1_matrix_input_resolution 1 c1SynthMatrix
    (c1SynthMatrix.commands.filter (·.is_input_option)) rfl).2.2 (by decide)
  exact ⟨h.1, by decide, by decide⟩

/-
  Command dispatcher targeting: the click handler attached to every
  non-repeatable command button in the render method reads the dataset
  fields of the button (tvDeviceId, deviceId, source flag) and the
  current source-device state, and picks exactly one send target.
-/

/-- The volume-control command set hard-coded in the click handler. -/
def volumeControlSet : List String := ["volume_up", "volume_down", "mute"]

theorem jsStrTruthy_some (s : String) : jsStrTruthy (some s) = !s.isEmpty := rfl

theorem jsStrTruthy_none : jsStrTruthy none = false := rfl

inductive DispatchTarget where
  | auxTv (id : String)
  | explicitDevice (id : String)
  | sourceDev (id : String)
  | ownDevice
  deriving Repr, DecidableEq

/-- Resolution context of one button press: the two optional dataset
device identifiers, the source flag of the button, and the identifier
of the active source device when one is resolved. -/
structure PressCtx where
  tvDeviceId : Option String
  targetDeviceId : Option String
  isSource : Bool
  sourceDeviceId : Option String
  deriving Repr, DecidableEq

/-- Target choice of the click handler, translated from the source:
tvDeviceId wins, then deviceId, then the source device when the button
is flagged source or when a source is active and the command is not in
the volume-control set, else the widget device. -/
def chooseTarget (ctx : PressCtx) (command : String) : DispatchTarget :=
  if jsStrTruthy ctx.tvDeviceId then .auxTv (ctx.tvDeviceId.getD "")
  else if jsStrTruthy ctx.targetDeviceId then
    .explicitDevice (ctx.targetDeviceId.getD "")
  else
    match ctx.sourceDeviceId with
    | some sid =>
        if ctx.isSource then .sourceDev sid
        else if command ∉ volumeControlSet then .sourceDev sid
        else .ownDevice
    | none => .ownDevice

/-- C2: dispatch-target precedence.  An explicit auxiliary TV id wins;
else an explicit target device id; else the source device when the
press is source-flagged or when a source is active and the command is
outside the volume-control set; else the widget device.  In particular
a volume-control command with no explicit target while a source is
active goes to the widget device, and any other command in that state
goes to the source device. -/
theorem c2_dispatch_target_precedence (ctx : PressCtx) (command : String) :
    (∀ t, ctx.tvDeviceId = some t → t ≠ "" →
      chooseTarget ctx command = .auxTv t) ∧
    (∀ d, jsStrTruthy ctx.tvDeviceId = false → ctx.targetDeviceId = some d →
      d ≠ "" → chooseTarget ctx command = .explicitDevice d) ∧
    (∀ s, jsStrTruthy ctx.tvDeviceId = false →
      jsStrTruthy ctx.targetDeviceId = false → ctx.sourceDeviceId = some s →
      ctx.isSource = true → chooseTarget ctx command = .sourceDev s) ∧
    (∀ s, jsStrTruthy ctx.tvDeviceId = false →
      jsStrTruthy ctx.targetDeviceId = false → ctx.sourceDeviceId = some s →
      command ∉ volumeControlSet → chooseTarget ctx command = .sourceDev s) ∧
    (∀ s, jsStrTruthy ctx.tvDeviceId = false →
      jsStrTruthy ctx.targetDeviceId = false → ctx.sourceDeviceId = some s →
      ctx.isSource = false → command ∈ volumeControlSet →
      chooseTarget ctx command = .ownDevice) ∧
    (jsStrTruthy ctx.tvDeviceId = false →
      jsStrTruthy ctx.targetDeviceId = false → ctx.sourceDeviceId = none →
      chooseTarget ctx command = .ownDevice) := by
  refine ⟨?_, ?_, ?_, ?_, ?_, ?_⟩
  · intro t ht htne
    simp [chooseTarget, ht, jsStrTruthy_some, String.isEmpty_iff, htne]
  · intro d h1 hd hdne
    simp [chooseTarget, h1, hd, jsStrTruthy_some, String.isEmpty_iff, hdne]
  · intro s h1 h2 hs hsrc
    simp [chooseTarget, h1, h2, hs, hsrc]
  · intro s h1 h2 hs hcmd
    by_cases hsrc : ctx.isSource <;>
      simp [chooseTarget, h1, h2, hs, hsrc, hcmd]
  · intro s h1 h2 hs hsrc hcmd
    simp [chooseTarget, h1, h2, hs, hsrc, hcmd]
  · intro h1 h2 hs
    simp [chooseTarget, h1, h2, hs]

/-- C2 witness: with no explicit target and an active source, the mute
command routes to the widget device while the guide command routes to
the source device. -/
theorem c2_witness :
    chooseTarget ⟨none, none, false, some "cable"⟩ "mute" =
      DispatchTarget.ownDevice ∧
    chooseTarget ⟨none, none, false, some "cable"⟩ "guide" =
      DispatchTarget.sourceDev "cable" := by
  constructor
  · exact (c2_dispatch_target_precedence ⟨none, none, false, some "cable"⟩
      "mute").2.2.2.2.1 "cable" rfl rfl rfl rfl (by decide)
  · exact (c2_dispatch_target_precedence ⟨none, none, false, some "cable"⟩
      "guide").2.2.2.1 "cable" rfl rfl rfl (by decide)

/-
  Routing-query response parsing (method queryMatrixRouting): the
  response text is trimmed, then matched against four patterns in
  order (in-digits, input-digits, digits at end, any digits); the
  first capture wins and is mapped to a resolved input command by
  string comparison with its input value.  The JS regex engine scans
  candidate start positions left to right; each pattern is modelled by
  a positional matcher plus a leftmost scan.
-/

/-- JS regex digit class. -/
def isDigitCh (c : Char) : Bool := c.isDigit

/-- JS regex whitespace class, restricted to its ASCII members. -/
def isSpaceCh (c : Char) : Bool :=
  c = ' ' || c = '\t' || c = '\n' || c = '\r' || c.val = 11 || c.val = 12

/-- Maximal digit run at the head (greedy digit capture). -/
def takeDigits (l : List Char) : List Char := l.takeWhile isDigitCh

/-- Case-insensitive comparison against a lowercase letter. -/
def chIs (c target : Char) : Bool := c.toLower = target

/-- JS String.prototype.trim, modelled on character lists. -/
def jsTrim (l : List Char) : List Char :=
  ((l.dropWhile isSpaceCh).reverse.dropWhile isSpaceCh).reverse

/-- Positional matcher for the first pattern: letters i n (either case)
followed by at least one digit; captures the digit run. -/
def matchInAt : List Char → Option (List Char)
  | c1 :: c2 :: rest =>
      if chIs c1 'i' && chIs c2 'n' && !(takeDigits rest).isEmpty then
        some (takeDigits rest)
      else none
  | _ => none

/-- Positional matcher for the second pattern: the word input (either
case), optional whitespace, then at least one digit. -/
def matchInputAt : List Char → Option (List Char)
  | c1 :: c2 :: c3 :: c4 :: c5 :: rest =>
      if chIs c1 'i' && chIs c2 'n' && chIs c3 'p' && chIs c4 'u' &&
          chIs c5 't' then
        let ds := takeDigits (rest.dropWhile isSpaceCh)
        if !ds.isEmpty then some ds else none
      else none
  | _ => none

/-- Positional matcher for the third pattern: a digit run followed only
by whitespace up to the end of the string. -/
def matchEndNumAt (l : List Char) : Option (List Char) :=
  let ds := takeDigits l
  if !ds.isEmpty && (l.drop ds.length).all isSpaceCh then some ds else none

/-- Positional matcher for the fourth pattern: any digit run. -/
def matchNumAt (l : List Char) : Option (List Char) :=
  let ds := takeDigits l
  if !ds.isEmpty then some ds else none

/-- Leftmost-match scan: try the positional matcher at every start
position from the left, first success wins. -/
def scanFirst (f : List Char → Option (List Char)) : List Char → Option (List Char)
  | [] => f []
  | c :: t =>
      match f (c :: t) with
      | some r => some r
      | none => scanFirst f t

/-- The tiered parse of queryMatrixRouting, translated from the source:
trim, then the four patterns in order, first match wins; the capture is
kept as a string. -/
def parseRoutingResponse (response : String) : Option String :=
  let l := jsTrim response.data
  let m :=
    match scanFirst matchInAt l with
    | some r => some r
    | none =>
        match scanFirst matchInputAt l with
        | some r => some r
        | none =>
            match scanFirst matchEndNumAt l with
            | some r => some r
            | none => scanFirst matchNumAt l
  m.map (fun ds => String.mk ds)

/-- Mapping of the parsed number to a resolved input command: find by
string equality with the input value (the source writes the comparison
twice, against the capture and against its stringification, which are
the same string). -/
def findInputCommand (cmds : List MatrixCommand) (parsed : String) :
    Option MatrixCommand :=
  cmds.find? (fun c => c.input_value = some parsed)

theorem mem_jsTrim {c : Char} {l : List Char} (h : c ∈ jsTrim l) : c ∈ l := by
  simp only [jsTrim, List.mem_reverse] at h
  have h2 : c ∈ (l.dropWhile isSpaceCh).reverse :=
    (List.dropWhile_sublist _).subset h
  rw [List.mem_reverse] at h2
  exact (List.dropWhile_sublist _).subset h2

theorem takeDigits_eq_nil {l : List Char}
    (h : ∀ c ∈ l, isDigitCh c = false) : takeDigits l = [] := by
  cases l with
  | nil => rfl
  | cons c t =>
      simp [takeDigits, List.takeWhile_cons, h c (List.mem_cons_self c t)]

theorem matchInAt_noDigit {l : List Char}
    (h : ∀ c ∈ l, isDigitCh c = false) : matchInAt l = none := by
  match l with
  | [] => rfl
  | [_] => rfl
  | c1 :: c2 :: rest =>
      have hr : takeDigits rest = [] :=
        takeDigits_eq_nil (fun c hc => h c (by simp [hc]))
      simp [matchInAt, hr]

theorem matchInputAt_noDigit {l : List Char}
    (h : ∀ c ∈ l, isDigitCh c = false) : matchInputAt l = none := by
  match l with
  | [] | [_] | [_, _] | [_, _, _] | [_, _, _, _] => rfl
  | c1 :: c2 :: c3 :: c4 :: c5 :: rest =>
      have hr : takeDigits (rest.dropWhile isSpaceCh) = [] := by
        refine takeDigits_eq_nil (fun c hc => h c ?_)
        have := (List.dropWhile_sublist _).subset hc
        simp [this]
      simp [matchInputAt, hr]

theorem matchEndNumAt_noDigit {l : List Char}
    (h : ∀ c ∈ l, isDigitCh c = false) : matchEndNumAt l = none := by
  simp [matchEndNumAt, takeDigits_eq_nil h]

theorem matchNumAt_noDigit {l : List Char}
    (h : ∀ c ∈ l, isDigitCh c = false) : matchNumAt l = none := by
  simp [matchNumAt, takeDigits_eq_nil h]

theorem scanFirst_none (f : List Char → Option (List Char))
    (hf : ∀ l', (∀ c ∈ l', isDigitCh c = false) → f l' = none)
    (l : List Char) (h : ∀ c ∈ l, isDigitCh c = false) :
    scanFirst f l = none := by
  induction l with
  | nil => simp [scanFirst, hf [] (by simp)]
  | cons c t ih =>
      simp only [scanFirst]
      rw [hf (c :: t) h]
      exact ih (fun d hd => h d (by simp [hd]))

/-- Numeric denotation of a captured digit run. -/
def digitsVal (l : List Char) : Nat :=
  l.foldl (fun a c => a * 10 + (c.toNat - '0'.toNat)) 0

/-- Input slots used to exercise the parse-then-map pipeline. -/
def c3Inputs : List MatrixInput :=
  [ { index := 1, name := none, device_id := none, enabled := none }
  , { index := 2, name := none, device_id := none, enabled := none }
  , { index := 3, name := some "Roku", device_id := some "roku1"
      enabled := none } ]

/-- C3: the tiered parser resolves input 3 for the OREI style response,
resolves the capture 07 (denoting the number 7) for the input-word
style response, resolves nothing when the text holds no digit at all,
and the parsed value is mapped to an input command by comparing
stringified values. -/
theorem c3_routing_response_parse :
    parseRoutingResponse "av out1 in3" = some "3" ∧
    parseRoutingResponse "input 07" = some "07" ∧
    (parseRoutingResponse "input 07").map (fun s => digitsVal s.data) =
      some 7 ∧
    (∀ s : String, (∀ c ∈ s.data, isDigitCh c = false) →
      parseRoutingResponse s = none) ∧
    ((parseRoutingResponse "av out1 in3").bind
        (findInputCommand (synthesizeInputCommands c3Inputs))).map
      (·.command_id) = some (some "route_input_3") := by
  refine ⟨by decide, by decide, by decide, ?_, by decide⟩
  intro s hs
  have hl : ∀ c ∈ jsTrim s.data, isDigitCh c = false :=
    fun c hc => hs c (mem_jsTrim hc)
  simp only [parseRoutingResponse]
  rw [scanFirst_none _ (fun _ h' => matchInAt_noDigit h') _ hl,
    scanFirst_none _ (fun _ h' => matchInputAt_noDigit h') _ hl,
    scanFirst_none _ (fun _ h' => matchEndNumAt_noDigit h') _ hl,
    scanFirst_none _ (fun _ h' => matchNumAt_noDigit h') _ hl]
  rfl

/-- C3 witness: a digit-free response resolves to no match, through the
main theorem at a concrete string. -/
theorem c3_witness : parseRoutingResponse "no routing data" = none :=
  c3_routing_response_parse.2.2.2.1 "no routing data" (by decide)

/-
  Shared response cache (object VDADataCache), projected to one key:
  the cached record, the in-flight marker and a running count of
  producer invocations.  The single-threaded runtime serialises all
  operations, so behaviour is a trace of events: a fetch call at a
  time, or the settlement (resolve with a value, or reject) of the
  in-flight producer at a time.  Each started producer gets a
  generation number; every caller that joins an in-flight fetch awaits
  the same generation, and a resolve event assigns its value to that
  generation: that is how promise sharing hands one identical value to
  all waiters.
-/

/-- The time-to-live constant of the source (5000 ms). -/
def cacheTtl : Nat := 5000

inductive CacheEv where
  | call (t : Nat)
  | resolve (v : Nat) (t : Nat)
  | reject (t : Nat)
  deriving Repr, DecidableEq

inductive CallRes where
  | hit (v : Nat)
  | await (gen : Nat)
  deriving Repr, DecidableEq

structure CacheState where
  data : Option (Nat × Nat)
  loadingGen : Option Nat
  nextGen : Nat
  invocations : Nat
  deriving Repr, DecidableEq

def cacheInit : CacheState :=
  { data := none, loadingGen := none, nextGen := 0, invocations := 0 }

/-- Miss path of fetch: join the in-flight producer when one exists,
otherwise invoke the producer and mark it in flight. -/
def cacheMiss (s : CacheState) : CacheState × CallRes :=
  match s.loadingGen with
  | some g => (s, .await g)
  | none =>
      ( { s with
            loadingGen := some s.nextGen
            nextGen := s.nextGen + 1
            invocations := s.invocations + 1 },
        .await s.nextGen )

/-- One fetch call, translated from the source: a cached value younger
than the time-to-live is returned at once; otherwise the miss path. -/
def cacheCall (t : Nat) (s : CacheState) : CacheState × CallRes :=
  match s.data with
  | some (v, ts) => if t - ts < cacheTtl then (s, .hit v) else cacheMiss s
  | none => cacheMiss s

/-- Producer resolution: store the value with the current timestamp and
clear the in-flight marker; the settled generation receives the value. -/
def cacheResolve (v t : Nat) (s : CacheState) : CacheState × Option (Nat × Nat) :=
  match s.loadingGen with
  | some g => ({ s with data := some (v, t), loadingGen := none }, some (g, v))
  | none => (s, none)

/-- Producer failure: the in-flight marker is cleared, nothing stored. -/
def cacheReject (s : CacheState) : CacheState :=
  { s with loadingGen := none }

def cacheStep (s : CacheState) : CacheEv → CacheState
  | .call t => (cacheCall t s).1
  | .resolve v t => (cacheResolve v t s).1
  | .reject _ => cacheReject s

def cacheRun (s : CacheState) : List CacheEv → CacheState
  | [] => s
  | e :: es => cacheRun (cacheStep s e) es

/-- The outcomes handed to the fetch callers of a trace, in order. -/
def cacheCallResults (s : CacheState) : List CacheEv → List CallRes
  | [] => []
  | .call t :: es => (cacheCall t s).2 :: cacheCallResults (cacheStep s (.call t)) es
  | e :: es => cacheCallResults (cacheStep s e) es

/-- The generation-to-value assignments made by the resolve events of a
trace, in order. -/
def cacheResolutions (s : CacheState) : List CacheEv → List (Nat × Nat)
  | [] => []
  | .resolve v t :: es =>
      (cacheResolve v t s).2.toList ++ cacheResolutions (cacheStep s (.resolve v t)) es
  | e :: es => cacheResolutions (cacheStep s e) es

theorem cacheRun_append (s : CacheState) (l1 l2 : List CacheEv) :
    cacheRun s (l1 ++ l2) = cacheRun (cacheRun s l1) l2 := by
  induction l1 generalizing s with
  | nil => rfl
  | cons e es ih => simp [cacheRun, ih]

theorem cacheMiss_invocations_le (s : CacheState) :
    (cacheMiss s).1.invocations ≤ s.invocations + 1 := by
  unfold cacheMiss
  cases s.loadingGen <;> simp

theorem cacheCall_invocations_le (t : Nat) (s : CacheState) :
    (cacheCall t s).1.invocations ≤ s.invocations + 1 := by
  unfold cacheCall
  match hd : s.data with
  | some (v, ts) =>
      by_cases hf : t - ts < cacheTtl
      · simp [hf]
      · simp [hf, cacheMiss_invocations_le]
  | none => simp [cacheMiss_invocations_le]

theorem cacheCall_of_loading (t : Nat) (s : CacheState) (g : Nat)
    (h : s.loadingGen = some g) : (cacheCall t s).1 = s := by
  unfold cacheCall cacheMiss
  rw [h]
  match s.data with
  | some (v, ts) => by_cases hf : t - ts < cacheTtl <;> simp [hf]
  | none => simp

theorem cacheCall_of_fresh (t : Nat) (s : CacheState) (v ts : Nat)
    (hd : s.data = some (v, ts)) (hf : t - ts < cacheTtl) :
    cacheCall t s = (s, .hit v) := by
  unfold cacheCall
  rw [hd]
  simp [hf]

/-- A state is covered for window start t1 when a producer is in
flight or a value has been stored no earlier than t1. -/
def cacheCovered (t1 : Nat) (s : CacheState) : Prop :=
  (∃ g, s.loadingGen = some g) ∨ ∃ v ts, s.data = some (v, ts) ∧ t1 ≤ ts

theorem cacheCovered_resolve (t1 v t : Nat) (s : CacheState)
    (ht : t1 ≤ t) (h : cacheCovered t1 s) :
    cacheCovered t1 (cacheResolve v t s).1 := by
  cases hl : s.loadingGen with
  | some g =>
      simp only [cacheResolve, hl]
      exact Or.inr ⟨v, t, rfl, ht⟩
  | none =>
      simp only [cacheResolve, hl]
      rcases h with ⟨g, hg⟩ | hd
      · rw [hl] at hg; exact absurd hg (by simp)
      · exact Or.inr hd

theorem cacheCall_post (t : Nat) (s : CacheState) :
    (cacheCall t s).1 = s ∨
      ((cacheCall t s).1.invocations = s.invocations + 1 ∧
        ∃ g, (cacheCall t s).1.loadingGen = some g) := by
  unfold cacheCall cacheMiss
  cases hd : s.data with
  | none =>
      cases hl : s.loadingGen with
      | some g => simp
      | none => right; simp
  | some p =>
      obtain ⟨v, ts⟩ := p
      by_cases hf : t - ts < cacheTtl
      · simp [hf]
      · cases hl : s.loadingGen with
        | some g => simp [hf]
        | none => right; simp [hf]

theorem cache_mid_invariant (t1 n : Nat) (mid : List CacheEv)
    (hmid : ∀ e ∈ mid, ∃ v t, e = CacheEv.resolve v t ∧ t1 ≤ t) :
    ∀ s : CacheState,
      (s.invocations ≤ n ∨ (s.invocations = n + 1 ∧ cacheCovered t1 s)) →
      ((cacheRun s mid).invocations ≤ n ∨
        ((cacheRun s mid).invocations = n + 1 ∧
          cacheCovered t1 (cacheRun s mid))) := by
  induction mid with
  | nil => intro s h; exact h
  | cons e es ih =>
      intro s h
      obtain ⟨v, t, rfl, ht⟩ := hmid e (by simp)
      have hstep : (cacheStep s (CacheEv.resolve v t)).invocations =
          s.invocations := by
        cases hl : s.loadingGen <;> simp [cacheStep, cacheResolve, hl]
      refine ih (fun e he => hmid e (by simp [he])) _ ?_
      rcases h with h | ⟨hi, hc⟩
      · left; rw [hstep]; exact h
      · right
        exact ⟨by rw [hstep]; exact hi, cacheCovered_resolve t1 v t s ht hc⟩

/-- C4 counterexample: two fetch calls 2 ms apart (far inside the 5000
ms time-to-live) invoke the producer twice when the first producer
rejects in between, because rejection clears the in-flight marker and
stores nothing. -/
theorem c4_counterexample :
    (cacheRun cacheInit
        [CacheEv.call 0, CacheEv.reject 1, CacheEv.call 2]).invocations = 2 ∧
    2 - 0 < cacheTtl := by
  constructor
  · rfl
  · decide

/-- C4 (amended): a fetch whose cached value is younger than the
time-to-live returns it without touching the producer; two calls
within the time-to-live of each other invoke the producer at most once
PROVIDED every producer settlement between them is a resolve (a
rejection clears the in-flight marker and the second call re-invokes);
and two callers arriving before the first producer resolves await the
same generation, the producer runs exactly once, and the single
resolve event assigns one value to that shared generation. -/
theorem c4_cache_contract :
    (∀ (s : CacheState) (v ts t : Nat), s.data = some (v, ts) →
      t - ts < cacheTtl → cacheCall t s = (s, CallRes.hit v)) ∧
    (∀ (s0 : CacheState) (t1 t2 : Nat) (mid : List CacheEv),
      (∀ e ∈ mid, ∃ v t, e = CacheEv.resolve v t ∧ t1 ≤ t) →
      t2 - t1 < cacheTtl →
      (cacheRun s0 (CacheEv.call t1 :: mid ++ [CacheEv.call t2])).invocations ≤
        s0.invocations + 1) ∧
    (∀ t1 t2 t3 v : Nat,
      cacheCallResults cacheInit
          [CacheEv.call t1, CacheEv.call t2, CacheEv.resolve v t3] =
        [CallRes.await 0, CallRes.await 0] ∧
      cacheResolutions cacheInit
          [CacheEv.call t1, CacheEv.call t2, CacheEv.resolve v t3] =
        [(0, v)] ∧
      (cacheRun cacheInit
          [CacheEv.call t1, CacheEv.call t2, CacheEv.resolve v t3]).invocations =
        1) := by
  refine ⟨fun s v ts t hd hf => cacheCall_of_fresh t s v ts hd hf, ?_, ?_⟩
  · intro s0 t1 t2 mid hmid hwin
    have hrun : cacheRun s0 (CacheEv.call t1 :: mid ++ [CacheEv.call t2]) =
        cacheStep (cacheRun (cacheStep s0 (CacheEv.call t1)) mid)
          (CacheEv.call t2) := by
      show cacheRun (cacheStep s0 (CacheEv.call t1)) (mid ++ [CacheEv.call t2]) = _
      rw [cacheRun_append]
      rfl
    rw [hrun]
    have h1 : (cacheStep s0 (CacheEv.call t1)).invocations ≤ s0.invocations ∨
        ((cacheStep s0 (CacheEv.call t1)).invocations = s0.invocations + 1 ∧
          cacheCovered t1 (cacheStep s0 (CacheEv.call t1))) := by
      rcases cacheCall_post t1 s0 with h | ⟨hi, g, hg⟩
      · left
        show (cacheCall t1 s0).1.invocations ≤ s0.invocations
        rw [h]
      · right
        exact ⟨hi, Or.inl ⟨g, hg⟩⟩
    have h2 := cache_mid_invariant t1 s0.invocations mid hmid
      (cacheStep s0 (CacheEv.call t1)) h1
    rcases h2 with h2 | ⟨h2i, h2c⟩
    · have := cacheCall_invocations_le t2
        (cacheRun (cacheStep s0 (CacheEv.call t1)) mid)
      show (cacheCall t2 (cacheRun (cacheStep s0 (CacheEv.call t1)) mid)).1.invocations ≤
        s0.invocations + 1
      omega
    · rcases h2c with ⟨g, hg⟩ | ⟨v, ts, hd, hts⟩
      · show (cacheCall t2 (cacheRun (cacheStep s0 (CacheEv.call t1)) mid)).1.invocations ≤
          s0.invocations + 1
        rw [cacheCall_of_loading t2 _ g hg]
        omega
      · have hf : t2 - ts < cacheTtl :=
          lt_of_le_of_lt (Nat.sub_le_sub_left hts t2) hwin
        show (cacheCall t2 (cacheRun (cacheStep s0 (CacheEv.call t1)) mid)).1.invocations ≤
          s0.invocations + 1
        rw [cacheCall_of_fresh t2 _ v ts hd hf]
        simpa using h2i.le
  · intro t1 t2 t3 v
    exact ⟨rfl, rfl, rfl⟩

/-- C4 witness: a concrete trace of a call at 10 ms, the producer
resolving with value 42 at 20 ms, and a second call at 30 ms, invokes
the producer at most once, by the main theorem. -/
theorem c4_witness :
    (cacheRun cacheInit
        [CacheEv.call 10, CacheEv.resolve 42 20, CacheEv.call 30]).invocations ≤
      cacheInit.invocations + 1 := by
  have h := c4_cache_contract.2.1 cacheInit 10 30 [CacheEv.resolve 42 20]
    (by
      intro e he
      simp only [List.mem_singleton] at he
      subst he
      exact ⟨42, 20, rfl, by omega⟩)
    (by decide)
  simpa using h

/-
  Rate-limited query queue (object VDAMatrixQueryQueue): one processing
  loop pops operations strictly in enqueue order; before dispatching it
  waits until at least the minimum interval has passed since the
  recorded previous dispatch time, records the new dispatch time, runs
  the operation and settles its handle with the operation outcome; a
  throwing operation rejects only its own handle and the loop keeps
  going.  An operation is modelled by its running duration and whether
  it succeeds; the runner returns, per operation in order, its dispatch
  start time and the settlement of its handle.
-/

/-- The minimum spacing constant of the source (300 ms). -/
def queueMinInterval : Nat := 300

structure QueueOp where
  duration : Nat
  ok : Bool
  deriving Repr, DecidableEq

/-- The processing loop, translated from the source: each operation is
dispatched at the later of the current time and the previous dispatch
time plus the minimum interval; the clock then advances by the
operation duration. -/
def runQueue (last now : Nat) : List QueueOp → List (Nat × Bool)
  | [] => []
  | op :: rest =>
      let start := max now (last + queueMinInterval)
      (start, op.ok) :: runQueue start (start + op.duration) rest

theorem runQueue_outcomes (last now : Nat) (ops : List QueueOp) :
    (runQueue last now ops).map Prod.snd = ops.map (·.ok) := by
  induction ops generalizing last now with
  | nil => rfl
  | cons op rest ih => simp [runQueue, ih]

theorem runQueue_length (last now : Nat) (ops : List QueueOp) :
    (runQueue last now ops).length = ops.length := by
  induction ops generalizing last now with
  | nil => rfl
  | cons op rest ih => simp [runQueue, ih]

theorem runQueue_spacing (last now : Nat) (ops : List QueueOp) :
    List.Chain' (fun a b => a + queueMinInterval ≤ b)
      ((runQueue last now ops).map Prod.fst) := by
  induction ops generalizing last now with
  | nil => simp [runQueue]
  | cons op rest ih =>
      cases rest with
      | nil => simp [runQueue]
      | cons op2 rest2 =>
          have h2 := ih (max now (last + queueMinInterval))
            (max now (last + queueMinInterval) + op.duration)
          simp only [runQueue, List.map_cons] at h2 ⊢
          exact List.Chain'.cons (le_max_right _ _) h2

/-- C5: the queue runner settles exactly one handle per enqueued
operation, in enqueue order, each with the outcome of its own
operation (so one failing operation never stops the later ones), and
the start times of consecutive dispatches are at least the minimum
interval apart. -/
theorem c5_queue_fifo_spacing (last now : Nat) (ops : List QueueOp) :
    (runQueue last now ops).map Prod.snd = ops.map (·.ok) ∧
    (runQueue last now ops).length = ops.length ∧
    List.Chain' (fun a b => a + queueMinInterval ≤ b)
      ((runQueue last now ops).map Prod.fst) :=
  ⟨runQueue_outcomes last now ops, runQueue_length last now ops,
    runQueue_spacing last now ops⟩

/-
  Group power dispatch (method sendGroupPowerCommand): iterate the
  resolved member devices in order; a directly-controlled member gets
  the explicit power command, a serial member gets the first of its
  commands whose identifier is power or whose optional name lowercases
  to power (nothing is sent when no such command exists); a throwing
  send is logged and the loop continues; between consecutive members,
  never after the last, the loop waits the configured inter-member
  delay; the final status reports how many members succeeded.
-/

inductive MemberType where
  | controlled
  | serial
  | other
  deriving Repr, DecidableEq

structure GroupMember where
  device_id : String
  memberType : MemberType
  commands : List (String × Option String)
  sendOk : Bool
  deriving Repr, DecidableEq

/-- The inter-member delay: the configured value with the JS zero-falsy
fallback of 20 ms. -/
def groupDelay (sequence_delay_ms : Option Nat) : Nat :=
  jsOrNat sequence_delay_ms 20

/-- Power command lookup for a serial member: first command entry whose
identifier is power or whose name lowercases to power. -/
def findPowerCmd (cmds : List (String × Option String)) : Option String :=
  (cmds.find? (fun e =>
    e.1 = "power" || (e.2.map strToLower) = some "power")).map Prod.fst

/-- The send a member receives, when any: target device and command. -/
def memberPowerSend (m : GroupMember) : Option (String × String) :=
  match m.memberType with
  | .controlled => some (m.device_id, "power")
  | .serial => (findPowerCmd m.commands).map (fun cid => (m.device_id, cid))
  | .other => none

/-- A member counts as a success when a send happens and succeeds. -/
def memberSuccess (m : GroupMember) : Bool :=
  (memberPowerSend m).isSome && m.sendOk

/-- The dispatch loop, translated from the source: per member in order,
the attempted send (if any) is logged; the success counter grows only
on a succeeding send; one wait of the configured delay is inserted
after every member except the last.  Result: success count, list of
waits, send log. -/
def runGroupPower (delay : Nat) :
    List GroupMember → Nat × List Nat × List (String × String)
  | [] => (0, [], [])
  | [m] => ((if memberSuccess m then 1 else 0), [], (memberPowerSend m).toList)
  | m1 :: m2 :: rest =>
      let r := runGroupPower delay (m2 :: rest)
      ((if memberSuccess m1 then 1 else 0) + r.1, delay :: r.2.1,
        (memberPowerSend m1).toList ++ r.2.2)

theorem runGroupPower_count (delay : Nat) (ms : List GroupMember) :
    (runGroupPower delay ms).1 = (ms.filter memberSuccess).length := by
  induction ms with
  | nil => rfl
  | cons m rest ih =>
      cases rest with
      | nil => by_cases h : memberSuccess m <;> simp [runGroupPower, h]
      | cons m2 rest2 =>
          by_cases h : memberSuccess m <;>
            simp [runGroupPower, h, ih, List.filter_cons, Nat.add_comm]

theorem runGroupPower_log (delay : Nat) (ms : List GroupMember) :
    (runGroupPower delay ms).2.2 = ms.filterMap memberPowerSend := by
  induction ms with
  | nil => rfl
  | cons m rest ih =>
      cases rest with
      | nil =>
          cases hm : memberPowerSend m <;>
            simp [runGroupPower, List.filterMap_cons, hm]
      | cons m2 rest2 =>
          cases hm : memberPowerSend m <;>
            simp [runGroupPower, List.filterMap_cons, hm, ih]

theorem runGroupPower_waits (delay : Nat) (ms : List GroupMember)
    (h : ms ≠ []) :
    (runGroupPower delay ms).2.1 = List.replicate (ms.length - 1) delay := by
  induction ms with
  | nil => cases h rfl
  | cons m rest ih =>
      cases rest with
      | nil => simp [runGroupPower]
      | cons m2 rest2 =>
          simp [runGroupPower, ih (by simp), List.replicate_succ]

/-- C6: group power dispatch sends, in member order, exactly the
power-equivalent command of every member that has one (explicit power
for directly-controlled members, an identifier-or-name match for
serial members); it waits the configured delay exactly once between
consecutive members and never after the last; the reported count is
the number of members whose send succeeded; a member whose send fails
leaves every other member counted as if dispatched alone. -/
theorem c6_group_power (delay : Nat) (ms : List GroupMember) :
    (runGroupPower delay ms).1 = (ms.filter memberSuccess).length ∧
    (runGroupPower delay ms).2.2 = ms.filterMap memberPowerSend ∧
    (ms ≠ [] → (runGroupPower delay ms).2.1 =
      List.replicate (ms.length - 1) delay) ∧
    (∀ ms1 m ms2, ms = ms1 ++ m :: ms2 → m.sendOk = false →
      (runGroupPower delay ms).1 =
        (ms1.filter memberSuccess).length +
          (ms2.filter memberSuccess).length) := by
  refine ⟨runGroupPower_count delay ms, runGroupPower_log delay ms,
    fun h => runGroupPower_waits delay ms h, ?_⟩
  intro ms1 m ms2 hsplit hfail
  have hm : memberSuccess m = false := by
    simp [memberSuccess, hfail]
  rw [runGroupPower_count, hsplit]
  simp [List.filter_append, List.filter_cons, hm]

/-- A 3-member test group: a succeeding TV, a serial amplifier whose
send fails, a succeeding DVD player. -/
def c6Members : List GroupMember :=
  [ { device_id := "tv1", memberType := .controlled, commands := []
      sendOk := true }
  , { device_id := "amp", memberType := .serial
      commands := [("power", some "Power")], sendOk := false }
  , { device_id := "dvd", memberType := .controlled, commands := []
      sendOk := true } ]

/-- C6 witness: the 3-member group with a 20 ms delay produces exactly
two waits of 20 ms and a reported count of 2, counting only the
members whose send succeeded. -/
theorem c6_witness :
    (runGroupPower (groupDelay (some 20)) c6Members).2.1 = [20, 20] ∧
    (runGroupPower (groupDelay (some 20)) c6Members).1 = 2 := by
  have h := c6_group_power (groupDelay (some 20)) c6Members
  constructor
  · rw [h.2.2.1 (by decide)]
    decide
  · rw [h.1]
    decide

/-
  Press-and-hold repeat (methods startRepeat and stopRepeat) and the
  debounced silent send (method sendCommandSilent).  Timer behaviour
  is modelled as a discrete schedule: a press at time 0 sends at once;
  the interval then fires every 200 ms; releasing at time T clears the
  interval, so the firings are the positive multiples of the period
  strictly before T.  The 150 ms debounce of the silent send
  suppresses a dispatch closer than the window to the previous
  non-suppressed one (a suppressed dispatch does not update the
  last-send time, as in the source).
-/

/-- The repeat period constant of the source (200 ms). -/
def repeatPeriod : Nat := 200

/-- The debounce window constant of the source (150 ms). -/
def debounceWindow : Nat := 150

/-- The dispatch attempts of a hold gesture released T ms after the
press: the immediate send at 0, then the interval firings at the
positive multiples of the period strictly before T. -/
def heldDispatchTimes (T : Nat) : List Nat :=
  0 :: List.range' repeatPeriod ((T - 1) / repeatPeriod) repeatPeriod

/-- The debounce of sendCommandSilent over a list of attempt times. -/
def applyDebounce (last : Option Nat) : List Nat → List Nat
  | [] => []
  | t :: rest =>
      match last with
      | none => t :: applyDebounce (some t) rest
      | some l =>
          if t - l < debounceWindow then applyDebounce (some l) rest
          else t :: applyDebounce (some t) rest

/-- Hold-gesture timer state of the widget. -/
structure RepeatTimers where
  isHolding : Bool
  repeatInterval : Option Nat
  fillDelayTimeout : Option Nat
  holdCommand : Option String
  deriving Repr, DecidableEq

/-- startRepeat: mark holding, store the command, schedule the 250 ms
fill-delay timeout and the repeat interval. -/
def startRepeat (cmd : String) (_s : RepeatTimers) : RepeatTimers :=
  { isHolding := true, repeatInterval := some repeatPeriod
    fillDelayTimeout := some 250, holdCommand := some cmd }

/-- stopRepeat, translated from the source: clear both timers
unconditionally; when the gesture was holding, reset the hold state
and trigger one settle feedback cycle (the returned flag). -/
def stopRepeat (s : RepeatTimers) : RepeatTimers × Bool :=
  ( { isHolding := false, repeatInterval := none, fillDelayTimeout := none
      holdCommand := if s.isHolding then none else s.holdCommand },
    s.isHolding )

theorem applyDebounce_some_id (l : List Nat) :
    ∀ last : Nat,
      List.Chain' (fun a b => a + debounceWindow ≤ b) (last :: l) →
      applyDebounce (some last) l = l := by
  induction l with
  | nil => intro last _; rfl
  | cons t rest ih =>
      intro last hch
      rw [List.chain'_cons] at hch
      obtain ⟨h1, h2⟩ := hch
      simp only [applyDebounce]
      rw [if_neg (by omega)]
      rw [ih t h2]

theorem applyDebounce_id (l : List Nat)
    (hch : List.Chain' (fun a b => a + debounceWindow ≤ b) l) :
    applyDebounce none l = l := by
  cases l with
  | nil => rfl
  | cons t rest =>
      simp only [applyDebounce]
      rw [applyDebounce_some_id rest t hch]

theorem chain_range' (n : Nat) :
    ∀ s : Nat,
      List.Chain' (fun a b => a + debounceWindow ≤ b)
        (List.range' s n repeatPeriod) := by
  induction n with
  | zero => intro s; simp
  | succ n ih =>
      intro s
      cases n with
      | zero => simp [List.range']
      | succ n2 =>
          rw [List.range'_succ]
          have hch := ih (s + repeatPeriod)
          rw [List.range'_succ] at hch
          refine List.Chain'.cons ?_ hch
          exact Nat.add_le_add_left (by decide) s

theorem heldDispatchTimes_chain (T : Nat) :
    List.Chain' (fun a b => a + debounceWindow ≤ b) (heldDispatchTimes T) := by
  unfold heldDispatchTimes
  cases hn : (T - 1) / repeatPeriod with
  | zero => simp
  | succ n =>
      rw [List.range'_succ]
      refine List.Chain'.cons (by decide) ?_
      rw [← List.range'_succ]
      exact chain_range' (n + 1) repeatPeriod

theorem mem_heldDispatchTimes (T t : Nat) :
    t ∈ heldDispatchTimes T ↔
      t = 0 ∨ (0 < t ∧ t < T ∧ t % repeatPeriod = 0) := by
  simp only [heldDispatchTimes, List.mem_cons, List.mem_range',
    repeatPeriod]
  constructor
  · rintro (rfl | ⟨i, hi, rfl⟩)
    · exact Or.inl rfl
    · right
      have h1 : (i + 1) * 200 ≤ T - 1 :=
        (Nat.le_div_iff_mul_le (by decide)).1 hi
      omega
  · rintro (rfl | ⟨hpos, hlt, hmod⟩)
    · exact Or.inl rfl
    · right
      refine ⟨t / 200 - 1, ?_, ?_⟩
      · have h2 : (t / 200 - 1 + 1) * 200 ≤ T - 1 := by omega
        exact (Nat.le_div_iff_mul_le (by decide)).2 h2
      · omega

/-- C7: a hold gesture released T ms after the press dispatches at
time 0 and at every positive multiple of the period strictly before T
and at no other time (in particular never after release); starting
from an idle send state the debounce suppresses none of these
dispatches; release clears the repeat interval and the fill-delay
timeout and triggers exactly one settle cycle (a second release
triggers none). -/
theorem c7_hold_repeat (T : Nat) (cmd : String) (s : RepeatTimers) :
    (∀ t, t ∈ heldDispatchTimes T ↔
      t = 0 ∨ (0 < t ∧ t < T ∧ t % repeatPeriod = 0)) ∧
    applyDebounce none (heldDispatchTimes T) = heldDispatchTimes T ∧
    (stopRepeat (startRepeat cmd s)).1.repeatInterval = none ∧
    (stopRepeat (startRepeat cmd s)).1.fillDelayTimeout = none ∧
    (stopRepeat (startRepeat cmd s)).2 = true ∧
    (stopRepeat (stopRepeat (startRepeat cmd s)).1).2 = false := by
  refine ⟨fun t => mem_heldDispatchTimes T t,
    applyDebounce_id _ (heldDispatchTimes_chain T), rfl, rfl, rfl, rfl⟩

/-
  Detail-view (modal) teardown: the close handlers of the render
  method hide the modal, null the last-sent marker and re-render; the
  pending clear timeouts scheduled by sendCommand (their handles are
  discarded by the source) and the repeat interval are not touched.  A
  clear timeout that later fires only acts when the marker still
  equals the command it captured.
-/

structure ViewState where
  showRemote : Bool
  lastSent : Option String
  pendingClears : List String
  repeatInterval : Option Nat
  fillDelayTimeout : Option Nat
  deriving Repr, DecidableEq

/-- Success path of sendCommand: set the marker and schedule a clear
timeout capturing the sent command. -/
def markSent (cmd : String) (s : ViewState) : ViewState :=
  { s with lastSent := some cmd, pendingClears := s.pendingClears ++ [cmd] }

/-- The close-modal click handler, translated from the source: hide
the modal and null the marker.  No timer is cancelled. -/
def closeModal (s : ViewState) : ViewState :=
  { s with showRemote := false, lastSent := none }

/-- A scheduled clear timeout fires: when the marker still equals the
captured command, the marker is cleared and the view re-renders (the
returned flag); otherwise nothing happens. -/
def fireClearTimeout (cmd : String) (s : ViewState) : ViewState × Bool :=
  if s.lastSent = some cmd then ({ s with lastSent := none }, true)
  else (s, false)

/-- A modal-open state with the marker set, one pending clear timeout
and a running hold gesture. -/
def c9State : ViewState :=
  { showRemote := true, lastSent := some "power"
    pendingClears := ["power"], repeatInterval := some repeatPeriod
    fillDelayTimeout := some 250 }

/-- C9 counterexample: closing the modal cancels neither the pending
clear timeout nor the repeat interval timer: both survive the close
untouched, contradicting the claim that the close clears the pending
timeout and cancels the interval. -/
theorem c9_counterexample :
    (closeModal c9State).pendingClears = ["power"] ∧
    (closeModal c9State).repeatInterval = some repeatPeriod ∧
    (closeModal c9State).fillDelayTimeout = some 250 := by
  decide

/-- C9 (amended): closing the modal clears the last-sent marker and
hides the view but leaves the pending clear timeout and the repeat
interval exactly as they were; the stale clear timeout firing after
the close is a no-op that never re-renders (the marker no longer
matches its captured command); the repeat interval and the fill-delay
timeout are cancelled by stopRepeat, which runs on release, not on
modal close. -/
theorem c9_modal_close (s : ViewState) (cmd : String) (rt : RepeatTimers) :
    (closeModal s).lastSent = none ∧
    (closeModal s).showRemote = false ∧
    (closeModal s).pendingClears = s.pendingClears ∧
    (closeModal s).repeatInterval = s.repeatInterval ∧
    (closeModal s).fillDelayTimeout = s.fillDelayTimeout ∧
    fireClearTimeout cmd (closeModal s) = (closeModal s, false) ∧
    (stopRepeat rt).1.repeatInterval = none ∧
    (stopRepeat rt).1.fillDelayTimeout = none := by
  refine ⟨rfl, rfl, rfl, rfl, rfl, ?_, rfl, rfl⟩
  simp [fireClearTimeout, closeModal]

/-
  Source-command loading for a platform-native device (the HA branch
  of loadSourceDevice): the command list is reset to empty, then the
  per-device commands endpoint is fetched; an ok response yields the
  endpoint commands lowercased; a non-throwing non-ok response leaves
  the reset value; a thrown fetch is caught and the list falls back to
  the fixed common set.
-/

inductive HAFetchOutcome where
  | ok (cmds : List String)
  | httpFail
  | thrown
  deriving Repr, DecidableEq

/-- The fixed common-command fallback of the source. -/
def haFallbackCommands : List String :=
  ["up", "down", "left", "right", "select", "menu", "home", "back",
    "play_pause", "power"]

/-- The resulting source-command list per fetch outcome. -/
def loadHASourceCommands : HAFetchOutcome → List String
  | .ok cmds => cmds.map strToLower
  | .httpFail => []
  | .thrown => haFallbackCommands

/-- C8: a successful fetch from the per-device commands endpoint is
normalised to lowercase, and a throwing fetch falls back to the fixed
non-empty common set up, down, left, right, select, menu, home, back,
play_pause, power. -/
theorem c8_ha_source_commands :
    (∀ cmds, loadHASourceCommands (.ok cmds) = cmds.map strToLower) ∧
    loadHASourceCommands (.ok ["Up", "Select", "PlayPause"]) =
      ["up", "select", "playpause"] ∧
    loadHASourceCommands .thrown = haFallbackCommands ∧
    haFallbackCommands = ["up", "down", "left", "right", "select", "menu",
      "home", "back", "play_pause", "power"] ∧
    loadHASourceCommands .thrown ≠ [] := by
  refine ⟨fun _ => rfl, by decide, rfl, rfl, by decide⟩

/-
  Matrix input selection (method sendMatrixCommand), with the service
  call parameterised by whether it throws and the subsequent source
  re-resolution by a total lookup: find the pressed command among the
  resolved input commands; a generated command on a serial matrix
  without a routing template returns before any dispatch; otherwise
  exactly one dispatch is attempted (raw templated payload for a
  generated serial command, structured command identifier otherwise);
  the selected input, the last-sent marker and the re-resolved source
  device are written only after a non-throwing dispatch, inside the
  try block.  Second result: whether a dispatch was attempted.
-/

inductive MatrixKind where
  | network
  | serial
  deriving Repr, DecidableEq

structure MatrixUIState where
  selectedInput : Option String
  lastSent : Option String
  sourceDeviceId : Option String
  deriving Repr, DecidableEq

/-- Lookup of the pressed command among the resolved input commands. -/
def matrixCmdLookup (cmds : List MatrixCommand) (commandId : String) :
    Option MatrixCommand :=
  cmds.find? (fun c => c.command_id = some commandId)

def isSerialKind : MatrixKind → Bool
  | .serial => true
  | .network => false

/-- The state written after a successful dispatch: selected input,
last-sent marker, re-resolved source device. -/
def matrixUpdatedState (resolveSource : String → Option String)
    (commandId : String) : MatrixUIState :=
  { selectedInput := some commandId
    lastSent := some ("Matrix: " ++ commandId)
    sourceDeviceId := resolveSource commandId }

def sendMatrixCommand (mk : MatrixKind) (cmds : List MatrixCommand)
    (routingTemplate : Option String) (dispatchOk : Bool)
    (resolveSource : String → Option String) (commandId : String)
    (s : MatrixUIState) : MatrixUIState × Bool :=
  if ((matrixCmdLookup cmds commandId).map (·.generated)).getD false &&
      isSerialKind mk then
    match routingTemplate with
    | none => (s, false)
    | some _ =>
        if dispatchOk then (matrixUpdatedState resolveSource commandId, true)
        else (s, true)
  else
    if dispatchOk then (matrixUpdatedState resolveSource commandId, true)
    else (s, true)

/-- C10: matrix input selection is atomic on error.  A throwing
dispatch leaves the selected input, the marker and the resolved source
device exactly as they were; when a dispatch is attempted and
succeeds, all three are updated from the sent command; when no
dispatch is attempted (missing routing template for a generated serial
command) the state is also unchanged. -/
theorem c10_matrix_send_atomic (mk : MatrixKind) (cmds : List MatrixCommand)
    (tpl : Option String) (resolveSource : String → Option String)
    (commandId : String) (s : MatrixUIState) :
    (sendMatrixCommand mk cmds tpl false resolveSource commandId s).1 = s ∧
    ((sendMatrixCommand mk cmds tpl true resolveSource commandId s).2 = true →
      (sendMatrixCommand mk cmds tpl true resolveSource commandId s).1 =
        matrixUpdatedState resolveSource commandId) ∧
    (∀ ok : Bool,
      (sendMatrixCommand mk cmds tpl ok resolveSource commandId s).2 = false →
      (sendMatrixCommand mk cmds tpl ok resolveSource commandId s).1 = s) := by
  by_cases hg : (((matrixCmdLookup cmds commandId).map (·.generated)).getD false &&
      isSerialKind mk) = true
  · cases tpl with
    | none =>
        refine ⟨by simp [sendMatrixCommand, hg], ?_, ?_⟩
        · intro h
          simp [sendMatrixCommand, hg] at h
        · intro ok _
          simp [sendMatrixCommand, hg]
    | some t =>
        refine ⟨by simp [sendMatrixCommand, hg], ?_, ?_⟩
        · intro _
          simp [sendMatrixCommand, hg]
        · intro ok h
          cases ok with
          | false => simp [sendMatrixCommand, hg]
          | true => simp [sendMatrixCommand, hg] at h
  · refine ⟨by simp [sendMatrixCommand, hg], ?_, ?_⟩
    · intro _
      simp [sendMatrixCommand, hg]
    · intro ok h
      cases ok with
      | false => simp [sendMatrixCommand, hg]
      | true => simp [sendMatrixCommand, hg] at h

/-- Generated serial input command used by the C10 witness. -/
def c10Cmd : MatrixCommand :=
  { command_id := some "route_input_3", name := some "Input 3"
    is_input_option := false, input_value := some "3"
    device_id := some "atv", generated := true }

/-- C10 witness: on a serial matrix with a routing template, a
succeeding dispatch of the generated command updates the selected
input, the marker and the source device, through the main theorem at
concrete inputs. -/
theorem c10_witness :
    (sendMatrixCommand MatrixKind.serial [c10Cmd] (some "sw tpl")
        true (fun _ => some "atv") "route_input_3"
        ⟨none, none, none⟩).1 =
      matrixUpdatedState (fun _ => some "atv") "route_input_3" := by
  exact (c10_matrix_send_atomic MatrixKind.serial [c10Cmd] (some "sw tpl")
    (fun _ => some "atv") "route_input_3" ⟨none, none, none⟩).2.1 (by decide)

end VDA
